import Mathlib

/-!
# Verification of `pdf_blur_tool.py` against its specification

Shallow embedding of the selection-to-edit pipeline of the PDF mosaic
tool: the selection tracker (`MosaicScene` mouse handlers), the region
editor (`PDFMosaicApp.apply_mosaic`) and the page store
(`PDFMosaicApp.load_pdf` / `prev_page` / `next_page` / `save_pdf`).

Scene coordinates (`QPointF`, `QRectF`) are modelled over `ℚ`; Python's
`int()` truncation toward zero is `pyInt`.  Pages are raster images with
a color mode and a pixel function; pixels are lists of channel values.
The `np.random.choice([0, 255], ...)` grid is an injected parameter
`g : ℕ → ℕ → ℕ` together with the hypothesis that its values lie in
`{0, 255}`.
-/

/-- Python `int()` on a rational: truncation toward zero. -/
def pyInt (q : ℚ) : ℤ := if 0 ≤ q then ⌊q⌋ else ⌈q⌉

theorem pyInt_intCast (n : ℤ) : pyInt (n : ℚ) = n := by
  unfold pyInt
  split <;> simp

/-- A point in scene coordinates (`QPointF`). -/
structure Pt where
  x : ℚ
  y : ℚ
deriving DecidableEq

/-- A rectangle in scene coordinates (`QRectF`): origin plus extent.
`w` and `h` may be negative for a non-normalized rectangle. -/
structure RectF where
  x : ℚ
  y : ℚ
  w : ℚ
  h : ℚ
deriving DecidableEq

/-- `QRectF(p, q).normalized()`: the normalized bounding box of the two
corner points, with top-left origin and nonnegative extent. -/
def RectF.normalizedOf (p q : Pt) : RectF :=
  { x := min p.x q.x, y := min p.y q.y, w := |q.x - p.x|, h := |q.y - p.y| }

/-- A rectangle with integer corner data, cast into scene coordinates. -/
def RectF.ofInt (a b c d : ℤ) : RectF := ⟨(a : ℚ), (b : ℚ), (c : ℚ), (d : ℚ)⟩

/-- PIL color modes that occur in the tool (pages arrive as RGB from the
rasterizer; the mosaic patch is built in L; the display copy is RGBA). -/
inductive PilMode where
  | L
  | RGB
  | RGBA
deriving DecidableEq

/-- A PIL image: mode, size, and a pixel function giving the list of
channel values at column `x`, row `y`. -/
structure PilImage where
  mode : PilMode
  width : ℕ
  height : ℕ
  px : ℕ → ℕ → List ℕ

/-- `Image.convert` applied to a single gray value: replicate the L
channel into the target mode (alpha becomes opaque). -/
def grayToMode : PilMode → ℕ → List ℕ
  | .L, v => [v]
  | .RGB, v => [v, v, v]
  | .RGBA, v => [v, v, v, 255]

/-- Black in a given mode: the mode conversion of gray value 0. -/
def blackPx (m : PilMode) : List ℕ := grayToMode m 0

/-- White in a given mode: the mode conversion of gray value 255. -/
def whitePx (m : PilMode) : List ℕ := grayToMode m 255

/-- PIL nearest-neighbor source index: destination pixel `x` of a
1-D resize from `srcN` to `dstN` samples reads source index
`⌊(x + 1/2) · srcN / dstN⌋`. -/
def nnIdx (srcN dstN x : ℕ) : ℕ := (2 * x + 1) * srcN / (2 * dstN)

theorem nnIdx_lt (srcN dstN x : ℕ) (hs : 0 < srcN) (hx : x < dstN) :
    nnIdx srcN dstN x < srcN := by
  unfold nnIdx
  have hd : 0 < 2 * dstN := by omega
  rw [Nat.div_lt_iff_lt_mul hd]
  have h1 : 2 * x + 1 < 2 * dstN := by omega
  calc (2 * x + 1) * srcN < 2 * dstN * srcN :=
        (Nat.mul_lt_mul_right hs).mpr h1
    _ = srcN * (2 * dstN) := by ring

/-! ## Region editor: `PDFMosaicApp.apply_mosaic`

```python
x1, y1 = max(0, int(rect_f.x())), max(0, int(rect_f.y()))
x2, y2 = min(img_w, int(rect_f.x() + rect_f.width())), min(img_h, int(rect_f.y() + rect_f.height()))
w, h = x2 - x1, y2 - y1
if w <= 1 or h <= 1: return
block_size = 8
num_blocks_w = max(1, w // block_size)
num_blocks_h = max(1, h // block_size)
random_grid = np.random.choice([0, 255], size=(num_blocks_h, num_blocks_w)).astype(np.uint8)
mosaic_small = Image.fromarray(random_grid, mode='L')
final_mosaic = mosaic_small.resize((w, h), resample=Image.Resampling.NEAREST)
final_region = final_mosaic.convert(pil_img.mode)
pil_img.paste(final_region, (x1, y1, x2, y2))
```
-/

def clampX1 (r : RectF) : ℤ := max 0 (pyInt r.x)

def clampY1 (r : RectF) : ℤ := max 0 (pyInt r.y)

def clampX2 (img : PilImage) (r : RectF) : ℤ := min (img.width : ℤ) (pyInt (r.x + r.w))

def clampY2 (img : PilImage) (r : RectF) : ℤ := min (img.height : ℤ) (pyInt (r.y + r.h))

/-- Clamped region width `w = x2 - x1`. -/
def regW (img : PilImage) (r : RectF) : ℤ := clampX2 img r - clampX1 r

/-- Clamped region height `h = y2 - y1`. -/
def regH (img : PilImage) (r : RectF) : ℤ := clampY2 img r - clampY1 r

/-- Number of mosaic cell columns: `max(1, w // 8)`. -/
def numBlocksW (w : ℕ) : ℕ := max 1 (w / 8)

/-- Number of mosaic cell rows: `max(1, h // 8)`. -/
def numBlocksH (h : ℕ) : ℕ := max 1 (h / 8)

/-- Membership of an (absolute) pixel coordinate in the clamped region
`[x1, x2) × [y1, y2)`. -/
def inRegion (img : PilImage) (r : RectF) (x y : ℕ) : Prop :=
  clampX1 r ≤ (x : ℤ) ∧ (x : ℤ) < clampX2 img r ∧
  clampY1 r ≤ (y : ℤ) ∧ (y : ℤ) < clampY2 img r

instance (img : PilImage) (r : RectF) (x y : ℕ) : Decidable (inRegion img r x y) := by
  unfold inRegion; infer_instance

/-- `PDFMosaicApp.apply_mosaic` on one page.  `g` is the random grid
(`g row col` is `random_grid[row][col]`); the resize is nearest-neighbor;
the patch is converted to the page's mode and pasted at
`(x1, y1, x2, y2)`. -/
def applyMosaic (g : ℕ → ℕ → ℕ) (img : PilImage) (r : RectF) : PilImage :=
  let w := regW img r
  let h := regH img r
  if w ≤ 1 ∨ h ≤ 1 then img
  else
    let wn := w.toNat
    let hn := h.toNat
    let nbw := numBlocksW wn
    let nbh := numBlocksH hn
    { img with
      px := fun x y =>
        if inRegion img r x y then
          grayToMode img.mode
            (g (nnIdx nbh hn ((y : ℤ) - clampY1 r).toNat)
               (nnIdx nbw wn ((x : ℤ) - clampX1 r).toNat))
        else img.px x y }

/-! ## Selection tracker: `MosaicScene` mouse handlers -/

/-- `MosaicScene` state: the press anchor, the rubber-band rectangle item
(its current rect, when the item exists), and the drawing flag. -/
structure SceneState where
  start_point : Option Pt
  current_rect : Option RectF
  is_drawing : Bool

/-- The scene as constructed: no anchor, no rectangle item, not drawing. -/
def initScene : SceneState :=
  { start_point := none, current_rect := none, is_drawing := false }

/-- `mousePressEvent` (left button): record the anchor and create the
zero-size rubber-band rectangle `QRectF(p, p)` at it. -/
def mousePress (p : Pt) (_s : SceneState) : SceneState :=
  { start_point := some p
    current_rect := some ⟨p.x, p.y, 0, 0⟩
    is_drawing := true }

/-- `mouseMoveEvent`: while drawing with a live rectangle item, replace
the item's rect by the normalized bounding box of the anchor and the
cursor. -/
def mouseMove (p : Pt) (s : SceneState) : SceneState :=
  match s.is_drawing, s.start_point, s.current_rect with
  | true, some a, some _ => { s with current_rect := some (RectF.normalizedOf a p) }
  | _, _, _ => s

/-- `mouseReleaseEvent` (left button): stop drawing, drop the rubber-band
item, and emit its last rect iff both extents exceed 5.  The release
position `_p` is never read. -/
def mouseRelease (_p : Pt) (s : SceneState) : SceneState × Option RectF :=
  if s.is_drawing then
    match s.current_rect with
    | some r =>
        let s' : SceneState := { s with is_drawing := false, current_rect := none }
        if 5 < r.w ∧ 5 < r.h then (s', some r) else (s', none)
    | none => ({ s with is_drawing := false }, none)
  else (s, none)

/-! ## Page store: `PDFMosaicApp` page list and navigation -/

/-- The document-level state of `PDFMosaicApp`: the rasterized page list
and the index of the page being viewed. -/
structure AppState where
  pages_images : List PilImage
  current_page_index : ℤ

/-- `load_pdf`: `convert_from_path` either raises (caught; the message is
shown and the state is untouched) or yields the new page list, which
replaces the old one before the index is reset to 0. -/
def load_pdf (s : AppState) (result : Except String (List PilImage)) : AppState :=
  match result with
  | .ok pages => { pages_images := pages, current_page_index := 0 }
  | .error _ => s

/-- `prev_page`: step back only when the index is positive. -/
def prev_page (s : AppState) : AppState :=
  if 0 < s.current_page_index then
    { s with current_page_index := s.current_page_index - 1 }
  else s

/-- `next_page`: step forward only when the index is below `len - 1`. -/
def next_page (s : AppState) : AppState :=
  if s.current_page_index < (s.pages_images.length : ℤ) - 1 then
    { s with current_page_index := s.current_page_index + 1 }
  else s

/-- `apply_mosaic` at the app level: return early on an empty page list,
otherwise mutate the current page in place. -/
def apply_mosaic_state (g : ℕ → ℕ → ℕ) (s : AppState) (r : RectF) : AppState :=
  if s.pages_images.isEmpty then s
  else
    match s.pages_images.get? s.current_page_index.toNat with
    | some img =>
        { s with pages_images :=
            s.pages_images.set s.current_page_index.toNat (applyMosaic g img r) }
    | none => s

/-- `img.convert("RGB")` on one pixel. -/
def rgbOfPixel : PilMode → List ℕ → List ℕ
  | .L, p => match p with | [v] => [v, v, v] | _ => []
  | .RGB, p => p
  | .RGBA, p => match p with | [r, g, b, _] => [r, g, b] | _ => []

/-- `img.convert("RGB")` on a page. -/
def toRGB (img : PilImage) : PilImage :=
  { mode := .RGB, width := img.width, height := img.height
    px := fun x y => rgbOfPixel img.mode (img.px x y) }

/-- Observable outcome of `save_pdf`. -/
inductive SaveOutcome where
  | silentReturn
  | emptyDocumentError
  | wrote (doc : List PilImage)

/-- `save_pdf`: with no pages it returns at once (no dialog, no file, no
error); otherwise it writes all pages, converted to RGB and in order, as
one multi-page PDF (`save_all=True, append_images=pdf_pages[1:]`). -/
def save_pdf (s : AppState) : AppState × SaveOutcome :=
  if s.pages_images.isEmpty then (s, .silentReturn)
  else (s, .wrote (s.pages_images.map toRGB))

/-! ## The editor's effect inventory

`init_ui` wires the selection signal to exactly one handler:
`self.scene.area_selected.connect(self.apply_mosaic)` — there is no
other edit path. -/

/-- The page-level effects reachable from a finalized selection: the one
slot connected to `area_selected`. -/
def editorEffects (g : ℕ → ℕ → ℕ) : List (PilImage → RectF → PilImage) :=
  [fun img r => applyMosaic g img r]

/-- Modelled from the spec: the Blur effect is absent from the source; the
spec describes it as "a Gaussian smoothing filter ... applied independently
per color channel ... isotropic and radius-parameterized".  Any such
normalized averaging kernel maps a constant image to itself, so we record
the weakest consequence used below: a smoothing effect leaves a constant
page pixel-identical. -/
def PreservesConstantPages (f : PilImage → RectF → PilImage) : Prop :=
  ∀ img r x y, (∀ u v, img.px u v = img.px 0 0) → (f img r).px x y = img.px x y

/-- A 20×20 uniform mid-gray RGB page, used as a concrete input. -/
def grayPage : PilImage :=
  { mode := .RGB, width := 20, height := 20, px := fun _ _ => [128, 128, 128] }

/-! ## Helper lemmas -/

theorem clampX1_ofInt (a b c d : ℤ) :
    clampX1 (RectF.ofInt a b c d) = max 0 a := by
  simp [clampX1, RectF.ofInt, pyInt_intCast]

theorem clampY1_ofInt (a b c d : ℤ) :
    clampY1 (RectF.ofInt a b c d) = max 0 b := by
  simp [clampY1, RectF.ofInt, pyInt_intCast]

theorem clampX2_ofInt (img : PilImage) (a b c d : ℤ) :
    clampX2 img (RectF.ofInt a b c d) = min (img.width : ℤ) (a + c) := by
  have h : ((a : ℚ) + (c : ℚ)) = ((a + c : ℤ) : ℚ) := by push_cast; ring
  simp only [clampX2, RectF.ofInt, h, pyInt_intCast]

theorem clampY2_ofInt (img : PilImage) (a b c d : ℤ) :
    clampY2 img (RectF.ofInt a b c d) = min (img.height : ℤ) (b + d) := by
  have h : ((b : ℚ) + (d : ℚ)) = ((b + d : ℤ) : ℚ) := by push_cast; ring
  simp only [clampY2, RectF.ofInt, h, pyInt_intCast]

theorem applyMosaic_of_degenerate (g : ℕ → ℕ → ℕ) (img : PilImage) (r : RectF)
    (hdeg : regW img r ≤ 1 ∨ regH img r ≤ 1) : applyMosaic g img r = img := by
  simp only [applyMosaic]
  rw [if_pos hdeg]

theorem applyMosaic_px_of_nondegenerate (g : ℕ → ℕ → ℕ) (img : PilImage) (r : RectF)
    (hw : 1 < regW img r) (hh : 1 < regH img r) (x y : ℕ) :
    (applyMosaic g img r).px x y =
      if inRegion img r x y then
        grayToMode img.mode
          (g (nnIdx (numBlocksH (regH img r).toNat) (regH img r).toNat
                ((y : ℤ) - clampY1 r).toNat)
             (nnIdx (numBlocksW (regW img r).toNat) (regW img r).toNat
                ((x : ℤ) - clampX1 r).toNat))
      else img.px x y := by
  simp only [applyMosaic]
  rw [if_neg (by omega)]

/-! ## Claims about the region editor -/

/-- C1: for every page and every selection rectangle whose clamped width
and height both exceed 1, `apply_mosaic` modifies only pixels inside the
clamped rectangle `[x1, y1, x2, y2)`: every pixel of the page outside that
rectangle is bit-identical before and after the paste. -/
theorem apply_mosaic_frame (g : ℕ → ℕ → ℕ) (img : PilImage) (r : RectF)
    (hw : 1 < regW img r) (hh : 1 < regH img r) :
    ∀ x y : ℕ, ¬ inRegion img r x y →
      (applyMosaic g img r).px x y = img.px x y := by
  intro x y hout
  rw [applyMosaic_px_of_nondegenerate g img r hw hh x y, if_neg hout]

theorem apply_mosaic_frame_witness :
    (1 < regW grayPage (RectF.ofInt 2 2 10 10) ∧
     1 < regH grayPage (RectF.ofInt 2 2 10 10) ∧
     ¬ inRegion grayPage (RectF.ofInt 2 2 10 10) 0 0) ∧
    (applyMosaic (fun _ _ => 0) grayPage (RectF.ofInt 2 2 10 10)).px 0 0 =
      grayPage.px 0 0 := by
  have hx1 := clampX1_ofInt 2 2 10 10
  have hy1 := clampY1_ofInt 2 2 10 10
  have hx2 := clampX2_ofInt grayPage 2 2 10 10
  have hy2 := clampY2_ofInt grayPage 2 2 10 10
  have hwd : grayPage.width = 20 := rfl
  have hht : grayPage.height = 20 := rfl
  rw [hwd] at hx2
  rw [hht] at hy2
  have hw : 1 < regW grayPage (RectF.ofInt 2 2 10 10) := by
    unfold regW; rw [hx2, hx1]; norm_num
  have hh : 1 < regH grayPage (RectF.ofInt 2 2 10 10) := by
    unfold regH; rw [hy2, hy1]; norm_num
  have hout : ¬ inRegion grayPage (RectF.ofInt 2 2 10 10) 0 0 := by
    unfold inRegion
    rw [hx1]
    norm_num
  exact ⟨⟨hw, hh, hout⟩,
    apply_mosaic_frame (fun _ _ => 0) grayPage (RectF.ofInt 2 2 10 10) hw hh 0 0 hout⟩

/-- C2: `apply_mosaic` clamps the rectangle via `x1 = max(0, rect.x)`,
`y1 = max(0, rect.y)`, `x2 = min(width, rect.x + rect.w)`,
`y2 = min(height, rect.y + rect.h)` (stated for integer-valued scene
rectangles, on which Python's `int()` truncation is the identity), and
whenever the clamped extent satisfies `x2 - x1 ≤ 1` or `y2 - y1 ≤ 1` —
including zero-area and fully out-of-bounds selections — it is the
identity on the page: no pixel is changed and no error is raised. -/
theorem apply_mosaic_clamp_and_degenerate_identity
    (g : ℕ → ℕ → ℕ) (img : PilImage) (r : RectF) (a b c d : ℤ) :
    (clampX1 (RectF.ofInt a b c d) = max 0 a ∧
     clampY1 (RectF.ofInt a b c d) = max 0 b ∧
     clampX2 img (RectF.ofInt a b c d) = min (img.width : ℤ) (a + c) ∧
     clampY2 img (RectF.ofInt a b c d) = min (img.height : ℤ) (b + d)) ∧
    (regW img r ≤ 1 ∨ regH img r ≤ 1 → applyMosaic g img r = img) :=
  ⟨⟨clampX1_ofInt a b c d, clampY1_ofInt a b c d,
    clampX2_ofInt img a b c d, clampY2_ofInt img a b c d⟩,
   applyMosaic_of_degenerate g img r⟩

theorem apply_mosaic_clamp_and_degenerate_identity_witness :
    (regW grayPage (RectF.ofInt 5 5 1 1) ≤ 1 ∨
     regH grayPage (RectF.ofInt 5 5 1 1) ≤ 1) ∧
    applyMosaic (fun _ _ => 0) grayPage (RectF.ofInt 5 5 1 1) = grayPage ∧
    clampX1 (RectF.ofInt 5 5 1 1) = max 0 5 := by
  have hx1 := clampX1_ofInt 5 5 1 1
  have hx2 := clampX2_ofInt grayPage 5 5 1 1
  have hwd : grayPage.width = 20 := rfl
  rw [hwd] at hx2
  have hdeg : regW grayPage (RectF.ofInt 5 5 1 1) ≤ 1 ∨
      regH grayPage (RectF.ofInt 5 5 1 1) ≤ 1 := by
    left; unfold regW; rw [hx2, hx1]; norm_num
  exact ⟨hdeg,
    (apply_mosaic_clamp_and_degenerate_identity (fun _ _ => 0) grayPage
      (RectF.ofInt 5 5 1 1) 5 5 1 1).2 hdeg,
    (apply_mosaic_clamp_and_degenerate_identity (fun _ _ => 0) grayPage
      (RectF.ofInt 5 5 1 1) 5 5 1 1).1.1⟩

/-- C8: region editing never resizes or reformats a page: width, height
and color mode are identical before and after `apply_mosaic` (the pasted
patch is produced at exactly the clamped region's size and converted to
the page's mode, and `paste` writes pixels in place). -/
theorem apply_mosaic_preserves_page_geometry (g : ℕ → ℕ → ℕ) (img : PilImage) (r : RectF) :
    (applyMosaic g img r).width = img.width ∧
    (applyMosaic g img r).height = img.height ∧
    (applyMosaic g img r).mode = img.mode := by
  simp only [applyMosaic]
  split <;> exact ⟨rfl, rfl, rfl⟩

/-- C3: on a clamped sub-region of size `w×h` with `w > 1` and `h > 1`,
the mosaic builds a coarse grid of exactly `max(1, w / 8)` columns by
`max(1, h / 8)` rows; every pixel written inside the region is the
page-mode conversion of the single shared value of exactly one grid cell
(the nearest-neighbor source cell of that pixel — so there is no
interpolation across cell boundaries and the patch fills exactly `w×h`),
and since each cell value is one of the two extremes 0 and 255, every
written pixel is black or white in the page's native color mode. -/
theorem apply_mosaic_cells (g : ℕ → ℕ → ℕ) (img : PilImage) (r : RectF)
    (hg : ∀ i j, g i j = 0 ∨ g i j = 255)
    (hw : 1 < regW img r) (hh : 1 < regH img r) :
    ∀ x y : ℕ, inRegion img r x y →
      (applyMosaic g img r).px x y =
        grayToMode img.mode
          (g (nnIdx (numBlocksH (regH img r).toNat) (regH img r).toNat
                ((y : ℤ) - clampY1 r).toNat)
             (nnIdx (numBlocksW (regW img r).toNat) (regW img r).toNat
                ((x : ℤ) - clampX1 r).toNat)) ∧
      nnIdx (numBlocksH (regH img r).toNat) (regH img r).toNat
          ((y : ℤ) - clampY1 r).toNat < numBlocksH (regH img r).toNat ∧
      nnIdx (numBlocksW (regW img r).toNat) (regW img r).toNat
          ((x : ℤ) - clampX1 r).toNat < numBlocksW (regW img r).toNat ∧
      ((applyMosaic g img r).px x y = blackPx img.mode ∨
       (applyMosaic g img r).px x y = whitePx img.mode) := by
  intro x y hin
  have hpx := applyMosaic_px_of_nondegenerate g img r hw hh x y
  rw [if_pos hin] at hpx
  obtain ⟨hx1, hx2, hy1, hy2⟩ := hin
  have hrowlt : ((y : ℤ) - clampY1 r).toNat < (regH img r).toNat := by
    unfold regH at hh ⊢; omega
  have hcollt : ((x : ℤ) - clampX1 r).toNat < (regW img r).toNat := by
    unfold regW at hw ⊢; omega
  have hnbh : 0 < numBlocksH (regH img r).toNat :=
    Nat.lt_of_lt_of_le Nat.zero_lt_one (le_max_left 1 _)
  have hnbw : 0 < numBlocksW (regW img r).toNat :=
    Nat.lt_of_lt_of_le Nat.zero_lt_one (le_max_left 1 _)
  refine ⟨hpx, nnIdx_lt _ _ _ hnbh hrowlt, nnIdx_lt _ _ _ hnbw hcollt, ?_⟩
  rcases hg (nnIdx (numBlocksH (regH img r).toNat) (regH img r).toNat
        ((y : ℤ) - clampY1 r).toNat)
      (nnIdx (numBlocksW (regW img r).toNat) (regW img r).toNat
        ((x : ℤ) - clampX1 r).toNat) with hv | hv
  · left; rw [hpx, hv]; rfl
  · right; rw [hpx, hv]; rfl

theorem apply_mosaic_cells_witness :
    (1 < regW grayPage (RectF.ofInt 2 2 10 10) ∧
     1 < regH grayPage (RectF.ofInt 2 2 10 10) ∧
     inRegion grayPage (RectF.ofInt 2 2 10 10) 5 5) ∧
    ((applyMosaic (fun _ _ => 0) grayPage (RectF.ofInt 2 2 10 10)).px 5 5 =
       blackPx PilMode.RGB ∨
     (applyMosaic (fun _ _ => 0) grayPage (RectF.ofInt 2 2 10 10)).px 5 5 =
       whitePx PilMode.RGB) := by
  have hx1 := clampX1_ofInt 2 2 10 10
  have hy1 := clampY1_ofInt 2 2 10 10
  have hx2 := clampX2_ofInt grayPage 2 2 10 10
  have hy2 := clampY2_ofInt grayPage 2 2 10 10
  have hwd : grayPage.width = 20 := rfl
  have hht : grayPage.height = 20 := rfl
  rw [hwd] at hx2
  rw [hht] at hy2
  have hw : 1 < regW grayPage (RectF.ofInt 2 2 10 10) := by
    unfold regW; rw [hx2, hx1]; norm_num
  have hh : 1 < regH grayPage (RectF.ofInt 2 2 10 10) := by
    unfold regH; rw [hy2, hy1]; norm_num
  have hin : inRegion grayPage (RectF.ofInt 2 2 10 10) 5 5 := by
    unfold inRegion
    rw [hx1, hy1, hx2, hy2]
    norm_num
  exact ⟨⟨hw, hh, hin⟩,
    (apply_mosaic_cells (fun _ _ => 0) grayPage (RectF.ofInt 2 2 10 10)
      (fun _ _ => Or.inl rfl) hw hh 5 5 hin).2.2.2⟩

/-! ## Claims about the selection tracker -/

/-- C10: the rectangle finalized at release is the live rectangle
recorded by the most recent move, not one recomputed from the release
point: begin(a) immediately followed by end(p) leaves the live rectangle
as the zero-size rectangle at `a`, so nothing is emitted regardless of
the distance between `a` and `p`; and the release point never influences
the result at all (`mouseReleaseEvent` reads the event only for its
button). -/
theorem release_uses_last_move_rect (a p q : Pt) (s s₀ : SceneState) :
    (mouseRelease p (mousePress a s₀)).2 = none ∧
    mouseRelease p s = mouseRelease q s := by
  constructor
  · have h : ¬ ((5 : ℚ) < (0 : ℚ) ∧ (5 : ℚ) < (0 : ℚ)) := by norm_num
    simp only [mouseRelease, mousePress, if_true, if_neg h]
  · rfl

/-- C4 counterexample: begin at (0, 0) directly followed by end at
(10, 10): both coordinate deltas are 10 ≥ 5, yet the tracker emits no
finalized rectangle — the live rectangle is still the zero-size rectangle
created at press, since no move intervened. -/
theorem end_far_from_anchor_emits_nothing :
    ((5 : ℚ) ≤ |(Pt.mk 10 10).x - (Pt.mk 0 0).x| ∧
     (5 : ℚ) ≤ |(Pt.mk 10 10).y - (Pt.mk 0 0).y|) ∧
    (mouseRelease (Pt.mk 10 10) (mousePress (Pt.mk 0 0) initScene)).2 = none := by
  have h : ¬ ((5 : ℚ) < (0 : ℚ) ∧ (5 : ℚ) < (0 : ℚ)) := by norm_num
  refine ⟨by norm_num, ?_⟩
  simp only [mouseRelease, mousePress, if_true, if_neg h]

/-- C4 amended: the finalized rectangle comes from the last move, not
the release point.  For begin(a), move(m), end(p): the tracker always
returns to the idle state, and it emits exactly one rectangle — the
normalized bounding box of `a` and `m` — iff both `|m.x - a.x| > 5` and
`|m.y - a.y| > 5` (strict, and both extents, not either); otherwise it
emits nothing.  With no intervening move nothing is ever emitted. -/
theorem begin_move_end_emission (a m p : Pt) (s₀ : SceneState) :
    (mouseRelease p (mouseMove m (mousePress a s₀))).1.is_drawing = false ∧
    (mouseRelease p (mouseMove m (mousePress a s₀))).2 =
      (if 5 < |m.x - a.x| ∧ 5 < |m.y - a.y| then some (RectF.normalizedOf a m)
       else none) := by
  have h2 : mouseRelease p (mouseMove m (mousePress a s₀)) =
      if 5 < |m.x - a.x| ∧ 5 < |m.y - a.y|
      then ((⟨some a, none, false⟩ : SceneState), some (RectF.normalizedOf a m))
      else ((⟨some a, none, false⟩ : SceneState), none) := rfl
  rw [h2]
  by_cases hc : 5 < |m.x - a.x| ∧ 5 < |m.y - a.y|
  · rw [if_pos hc, if_pos hc]
    exact ⟨rfl, rfl⟩
  · rw [if_neg hc, if_neg hc]
    exact ⟨rfl, rfl⟩

/-! ## Claims about the page store -/

/-- The page-index invariant of the spec: whenever the page list is
non-empty, `0 ≤ current_page_index < len(pages_images)`. -/
def pageInv (s : AppState) : Prop :=
  s.pages_images ≠ [] →
    0 ≤ s.current_page_index ∧
    s.current_page_index < (s.pages_images.length : ℤ)

theorem apply_mosaic_state_index (g : ℕ → ℕ → ℕ) (s : AppState) (r : RectF) :
    (apply_mosaic_state g s r).current_page_index = s.current_page_index := by
  unfold apply_mosaic_state
  by_cases h : s.pages_images.isEmpty
  · rw [if_pos h]
  · rw [if_neg h]
    cases h2 : s.pages_images.get? s.current_page_index.toNat <;> simp [h2]

theorem apply_mosaic_state_length (g : ℕ → ℕ → ℕ) (s : AppState) (r : RectF) :
    (apply_mosaic_state g s r).pages_images.length = s.pages_images.length := by
  unfold apply_mosaic_state
  by_cases h : s.pages_images.isEmpty
  · rw [if_pos h]
  · rw [if_neg h]
    cases h2 : s.pages_images.get? s.current_page_index.toNat <;> simp [h2]

/-- C5: whenever the page list is non-empty,
`0 ≤ current_page_index < len(pages_images)`, and every operation
preserves this: a successful load resets the index to 0; `prev_page` /
`next_page` are no-ops (state unchanged) when the target index would
fall outside `[0, pageCount)` and preserve the invariant otherwise;
region editing never changes the index and preserves the invariant, and
saving leaves the state unchanged. -/
theorem page_index_invariant (s : AppState) (pages : List PilImage)
    (g : ℕ → ℕ → ℕ) (r : RectF) :
    pageInv (load_pdf s (.ok pages)) ∧
    (load_pdf s (.ok pages)).current_page_index = 0 ∧
    (pageInv s → pageInv (prev_page s)) ∧
    (pageInv s → pageInv (next_page s)) ∧
    (s.current_page_index - 1 < 0 → prev_page s = s) ∧
    ((s.pages_images.length : ℤ) ≤ s.current_page_index + 1 → next_page s = s) ∧
    (apply_mosaic_state g s r).current_page_index = s.current_page_index ∧
    (pageInv s → pageInv (apply_mosaic_state g s r)) ∧
    (save_pdf s).1 = s := by
  refine ⟨?_, rfl, ?_, ?_, ?_, ?_, apply_mosaic_state_index g s r, ?_, ?_⟩
  · intro hne
    have : pages ≠ [] := hne
    have hlen : 0 < pages.length := List.length_pos.mpr this
    refine ⟨le_refl 0, ?_⟩
    show (0 : ℤ) < (pages.length : ℤ)
    exact_mod_cast hlen
  · intro hinv
    unfold prev_page
    by_cases h : 0 < s.current_page_index
    · rw [if_pos h]
      intro hne
      obtain ⟨h0, h1⟩ := hinv hne
      refine ⟨?_, ?_⟩
      · show 0 ≤ s.current_page_index - 1
        omega
      · show s.current_page_index - 1 < (s.pages_images.length : ℤ)
        omega
    · rw [if_neg h]; exact hinv
  · intro hinv
    unfold next_page
    by_cases h : s.current_page_index < (s.pages_images.length : ℤ) - 1
    · rw [if_pos h]
      intro hne
      obtain ⟨h0, h1⟩ := hinv hne
      refine ⟨?_, ?_⟩
      · show 0 ≤ s.current_page_index + 1
        omega
      · show s.current_page_index + 1 < (s.pages_images.length : ℤ)
        omega
    · rw [if_neg h]; exact hinv
  · intro h
    unfold prev_page
    rw [if_neg (by omega)]
  · intro h
    unfold next_page
    rw [if_neg (by omega)]
  · intro hinv hne
    have hidx := apply_mosaic_state_index g s r
    have hlen := apply_mosaic_state_length g s r
    have hne' : s.pages_images ≠ [] := by
      intro h0
      apply hne
      have : s.pages_images.length = 0 := by rw [h0]; rfl
      have : (apply_mosaic_state g s r).pages_images.length = 0 := by omega
      exact List.length_eq_zero.mp this
    have := hinv hne'
    rw [hidx, hlen]
    exact this
  · unfold save_pdf
    by_cases h : s.pages_images.isEmpty
    · rw [if_pos h]
    · rw [if_neg h]

theorem page_index_invariant_witness :
    pageInv ⟨[grayPage], 0⟩ ∧
    pageInv (prev_page ⟨[grayPage], 0⟩) ∧
    prev_page ⟨[grayPage], 0⟩ = ⟨[grayPage], 0⟩ ∧
    next_page ⟨[grayPage], 0⟩ = ⟨[grayPage], 0⟩ := by
  have hinv : pageInv ⟨[grayPage], 0⟩ := fun _ => by norm_num
  have H := page_index_invariant ⟨[grayPage], 0⟩ [grayPage]
    (fun _ _ => 0) (RectF.ofInt 0 0 0 0)
  exact ⟨hinv, H.2.2.1 hinv, H.2.2.2.2.1 (by norm_num),
    H.2.2.2.2.2.1 (by norm_num)⟩

/-- C7: load is atomic with respect to the held document: when the
rasterization collaborator raises, the caught exception leaves the page
list and current index exactly as before the attempt; on success the
page list is replaced wholesale and the index is reset to 0. -/
theorem load_pdf_atomic (s : AppState) (e : String) (pages : List PilImage) :
    load_pdf s (.error e) = s ∧
    load_pdf s (.ok pages) = ⟨pages, 0⟩ :=
  ⟨rfl, rfl⟩

/-- C6 counterexample: `save_pdf` invoked with zero pages loaded returns
silently — it raises nothing at all, in particular no
`EmptyDocumentError` (the guard `if not self.pages_images: return` fires
before any dialog or write). -/
theorem save_empty_no_error :
    (save_pdf ⟨[], 0⟩).2 = SaveOutcome.silentReturn ∧
    (save_pdf ⟨[], 0⟩).2 ≠ SaveOutcome.emptyDocumentError :=
  ⟨rfl, fun h => SaveOutcome.noConfusion h⟩

/-- C6 amended: when save is invoked with zero pages loaded it returns
silently — no file is written and no error is raised; otherwise it
serializes the full page sequence, in order and converted to RGB, into a
single multi-page document, leaving the app state unchanged. -/
theorem save_pdf_behavior (s : AppState) :
    (s.pages_images = [] → save_pdf s = (s, .silentReturn)) ∧
    (s.pages_images ≠ [] → save_pdf s = (s, .wrote (s.pages_images.map toRGB))) := by
  constructor
  · intro h
    unfold save_pdf
    rw [if_pos (List.isEmpty_iff.mpr h)]
  · intro h
    unfold save_pdf
    rw [if_neg (fun he => h (List.isEmpty_iff.mp he))]

theorem save_pdf_behavior_witness :
    ([grayPage] ≠ ([] : List PilImage)) ∧
    save_pdf ⟨[grayPage], 0⟩ = (⟨[grayPage], 0⟩, .wrote [toRGB grayPage]) := by
  have hne : ([grayPage] : List PilImage) ≠ [] := by simp
  exact ⟨hne, (save_pdf_behavior ⟨[grayPage], 0⟩).2 hne⟩

/-! ## The absent Blur effect -/

/-- C9 counterexample: no effect reachable from a finalized selection is
a smoothing.  The single handler connected to `area_selected` is the
mosaic; on a uniform mid-gray page it writes the extreme value 0
(black), which no Gaussian smoothing of a constant page can produce —
a normalized averaging kernel maps a constant page to itself.  Hence the
editor supports no Blur(radius) variant. -/
theorem no_blur_effect :
    ¬ ∃ f ∈ editorEffects (fun _ _ => 0), PreservesConstantPages f := by
  rintro ⟨f, hf, hsm⟩
  have hf' : f = fun img r => applyMosaic (fun _ _ => 0) img r := by
    simpa [editorEffects] using hf
  subst hf'
  have hx1 := clampX1_ofInt 2 2 10 10
  have hy1 := clampY1_ofInt 2 2 10 10
  have hx2 := clampX2_ofInt grayPage 2 2 10 10
  have hy2 := clampY2_ofInt grayPage 2 2 10 10
  have hwd : grayPage.width = 20 := rfl
  have hht : grayPage.height = 20 := rfl
  rw [hwd] at hx2
  rw [hht] at hy2
  have hw : 1 < regW grayPage (RectF.ofInt 2 2 10 10) := by
    unfold regW; rw [hx2, hx1]; norm_num
  have hh : 1 < regH grayPage (RectF.ofInt 2 2 10 10) := by
    unfold regH; rw [hy2, hy1]; norm_num
  have hin : inRegion grayPage (RectF.ofInt 2 2 10 10) 5 5 := by
    unfold inRegion
    rw [hx1, hy1, hx2, hy2]
    norm_num
  have hpx := applyMosaic_px_of_nondegenerate (fun _ _ => 0) grayPage
    (RectF.ofInt 2 2 10 10) hw hh 5 5
  rw [if_pos hin] at hpx
  have h := hsm grayPage (RectF.ofInt 2 2 10 10) 5 5 (fun _ _ => rfl)
  rw [hpx] at h
  simp [grayToMode, grayPage] at h

/-- C9 amended: the region editor supports exactly one effect — the
block-mosaic — and that effect is not a smoothing (it maps a constant
page to black/white cells); no Blur variant exists in the code. -/
theorem editor_mosaic_only (g : ℕ → ℕ → ℕ)
    (hg : ∀ i j, g i j = 0 ∨ g i j = 255) :
    editorEffects g = [fun img r => applyMosaic g img r] ∧
    ¬ PreservesConstantPages (fun img r => applyMosaic g img r) := by
  refine ⟨rfl, ?_⟩
  intro hsm
  have hx1 := clampX1_ofInt 2 2 10 10
  have hy1 := clampY1_ofInt 2 2 10 10
  have hx2 := clampX2_ofInt grayPage 2 2 10 10
  have hy2 := clampY2_ofInt grayPage 2 2 10 10
  have hwd : grayPage.width = 20 := rfl
  have hht : grayPage.height = 20 := rfl
  rw [hwd] at hx2
  rw [hht] at hy2
  have hw : 1 < regW grayPage (RectF.ofInt 2 2 10 10) := by
    unfold regW; rw [hx2, hx1]; norm_num
  have hh : 1 < regH grayPage (RectF.ofInt 2 2 10 10) := by
    unfold regH; rw [hy2, hy1]; norm_num
  have hin : inRegion grayPage (RectF.ofInt 2 2 10 10) 5 5 := by
    unfold inRegion
    rw [hx1, hy1, hx2, hy2]
    norm_num
  have hpx := applyMosaic_px_of_nondegenerate g grayPage
    (RectF.ofInt 2 2 10 10) hw hh 5 5
  rw [if_pos hin] at hpx
  obtain ⟨row, col, hpx2⟩ : ∃ row col,
      (applyMosaic g grayPage (RectF.ofInt 2 2 10 10)).px 5 5 =
        grayToMode grayPage.mode (g row col) := ⟨_, _, hpx⟩
  have h := hsm grayPage (RectF.ofInt 2 2 10 10) 5 5 (fun _ _ => rfl)
  rw [hpx2] at h
  have h128 : g row col = 128 := by
    have h' : grayToMode PilMode.RGB (g row col) = [128, 128, 128] := h
    simpa [grayToMode] using h'
  rcases hg row col with hv | hv <;> omega

theorem editor_mosaic_only_witness :
    editorEffects (fun _ _ => 0) = [fun img r => applyMosaic (fun _ _ => 0) img r] ∧
    ¬ PreservesConstantPages (fun img r => applyMosaic (fun _ _ => 0) img r) :=
  editor_mosaic_only (fun _ _ => 0) (fun _ _ => Or.inl rfl)
